import Mathlib

/-!
Verification model of the PDF-to-Notion reflow pipeline.

Strings from the JavaScript source are modelled as `List Char` (`Str`).
JavaScript `String.prototype.trim` is modelled over the ASCII whitespace
characters that occur in this pipeline's data (space, tab, newline,
carriage return).  Numeric page coordinates and rendered glyph heights
(JavaScript numbers) are modelled as integers; the heuristics only ever
compare them with each other and with the integer thresholds 2 and 10.
`Math.floor(n * 0.7)` on a count `n` is modelled exactly as IEEE-754
double arithmetic computes it (`jsFloorMul07`): the double nearest 0.7 is
3152519739159347 * 2^-52, its product with `n` is rounded to the nearest
53-bit significand (ties to even), and the result is floored.  This
equals the exact `floor(0.7 * n)` except at n = 90, 170, 180, 330, ...,
where it is one smaller; it is exact for every `n` below 2^53 and hence
for every reachable JavaScript array length.
-/

/-- Strings of the JavaScript source, as lists of characters. -/
abbrev Str := List Char

/-- Whitespace as removed by `String.prototype.trim` (ASCII subset). -/
def isWs (c : Char) : Bool := c = ' ' || c = '\t' || c = '\n' || c = '\r'

/-- Model of `s.trim()`: drop whitespace from both ends. -/
def trim (s : Str) : Str := ((s.dropWhile isWs).reverse.dropWhile isWs).reverse

/-- Model of `text.split('\n\n')`: leftmost non-overlapping split on a
blank-line separator (two consecutive newlines). -/
def splitBlank : Str → List Str
  | [] => [[]]
  | [c] => [[c]]
  | c1 :: c2 :: rest =>
    if c1 = '\n' ∧ c2 = '\n' then [] :: splitBlank rest
    else
      match splitBlank (c2 :: rest) with
      | [] => [[c1]]
      | p :: ps => (c1 :: p) :: ps

/-- `text.split('\n\n').filter(p => p.trim())`: the paragraphs kept by
Strategy A (whitespace-only segments are discarded). -/
def paragraphsOf (text : Str) : List Str :=
  (splitBlank text).filter (fun p => trim p ≠ [])

/-- The block type tags used by the pipeline (`'heading_2'`,
`'bulleted_list_item'`, `'paragraph'`). -/
inductive BType where
  | heading_2
  | bulleted_list_item
  | paragraph
deriving DecidableEq, Repr

/-- One structured content block `{ type, text }`. -/
structure NBlock where
  type : BType
  text : Str
deriving DecidableEq, Repr

/-- `paragraph.trim().startsWith('•') || paragraph.trim().startsWith('-')`. -/
def isBulletStart (s : Str) : Prop := s.head? = some '•' ∨ s.head? = some '-'

instance (s : Str) : Decidable (isBulletStart s) := by
  unfold isBulletStart; infer_instance

/-- `paragraph.trim().replace(/^[•-]\s*/, '')`: strip one leading bullet
marker and the whitespace that follows it. -/
def stripMarker (s : Str) : Str :=
  match s with
  | [] => []
  | c :: rest => if c = '•' ∨ c = '-' then rest.dropWhile isWs else c :: rest

/-- The per-paragraph classifier of Strategy A (`textToNotionBlocks` body):
the heading test (raw length < 100 and no trailing period) runs first, then
the bullet test on the trimmed text, then the paragraph default. -/
def classifySeg (paragraph : Str) : NBlock :=
  if paragraph.length < 100 ∧ paragraph.getLast? ≠ some '.' then
    ⟨BType.heading_2, trim paragraph⟩
  else if isBulletStart (trim paragraph) then
    ⟨BType.bulleted_list_item, stripMarker (trim paragraph)⟩
  else
    ⟨BType.paragraph, trim paragraph⟩

/-- Strategy A (`textToNotionBlocks`): split on blank lines, drop
whitespace-only segments, classify each remaining paragraph. -/
def textToNotionBlocks (text : Str) : List NBlock :=
  (paragraphsOf text).map classifySeg

/-- `parts.join(sep)`. -/
def joinSep (sep : Str) : List Str → Str
  | [] => []
  | [t] => t
  | t :: ts => t ++ sep ++ joinSep sep ts

/-- Rejoining block texts with blank-line separators (used to feed
Strategy A its own output). -/
def joinBlank (ts : List Str) : Str :=
  joinSep ('\n' :: '\n' :: []) ts

/-- A blank-line separator occurs nowhere in `s`. -/
def noSep (s : Str) : Prop := ¬ ('\n' :: '\n' :: []) <:+: s

instance (s : Str) : Decidable (noSep s) := by
  unfold noSep; infer_instance

/-!
Strategy B (the geometric `parsePDF` of `server.js`): positioned text
fragments are grouped into lines by vertical proximity, repeated
first/last lines across pages are detected as headers/footers, and the
remaining lines are classified by font-height dominance.
-/

/-- One positioned text fragment (`item` of `pdf.js-extract`): a string
with a vertical coordinate `y` and a rendered `height`. -/
structure Frag where
  str : Str
  y : ℤ
  height : ℤ
deriving DecidableEq, Repr

/-- Line grouping of one page's fragments: a new line starts whenever the
vertical distance to the previous fragment exceeds 2 units
(`Math.abs(item.y - lastY) > 2`); the final line is flushed at page end. -/
def groupLines : List Frag → List (List Frag)
  | [] => []
  | [f] => [[f]]
  | f :: g :: rest =>
    if 2 < |f.y - g.y| then [f] :: groupLines (g :: rest)
    else
      match groupLines (g :: rest) with
      | [] => [[f]]
      | l :: ls => (f :: l) :: ls

/-- The text of a line: `line.map(i => i.str).join(' ').trim()`. -/
def lineText (line : List Frag) : Str :=
  trim (joinSep [' '] (line.map Frag.str))

/-- Header candidates: the trimmed first-line text of every page that has
at least one line. -/
def firstLines (pages : List (List Frag)) : List Str :=
  pages.filterMap fun p =>
    match groupLines p with
    | [] => none
    | l :: _ => some (lineText l)

/-- Footer candidates: the trimmed last-line text of every page that has
at least one line. -/
def lastLines (pages : List (List Frag)) : List Str :=
  pages.filterMap fun p =>
    match groupLines p with
    | [] => none
    | l :: ls => some (lineText ((l :: ls).getLast (List.cons_ne_nil l ls)))

/-- Number of binary digits of `n` (`0` for `0`), by structural recursion
on a fuel argument so that it reduces in the kernel. -/
def bitLenAux : ℕ → ℕ → ℕ
  | 0, _ => 0
  | fuel + 1, n => if n = 0 then 0 else bitLenAux fuel (n / 2) + 1

/-- Number of binary digits of `n` (`0` for `0`). -/
def bitLen (n : ℕ) : ℕ := bitLenAux (n + 1) n

/-- `Math.floor(n * 0.7)` as IEEE-754 double arithmetic computes it for an
integer count `n`: the double nearest 0.7 is `3152519739159347 * 2^-52`;
the exact product `m * 2^-52` is rounded to the nearest double (53-bit
significand, ties to even) and the result is floored.  Exact for every
`n < 2^53`, hence for every JavaScript array length; differs from the
exact `floor(0.7 * n)` (one smaller) at n = 90, 170, 180, 330, .... -/
def jsFloorMul07 (n : ℕ) : ℕ :=
  let m := 3152519739159347 * n
  let b := bitLen m
  if b ≤ 53 then m / 2 ^ 52
  else
    let d := b - 53
    let hi := m / 2 ^ d
    let lo := m % 2 ^ d
    let half := 2 ^ (d - 1)
    let r :=
      if half < lo then hi + 1
      else if lo < half then hi
      else if hi % 2 = 0 then hi else hi + 1
    r * 2 ^ d / 2 ^ 52

/-- A canonical JavaScript array-index key: a digit string with no leading
zero (except `"0"`) whose value is below 2^32 - 1. -/
def arrayIndex? (s : Str) : Option ℕ :=
  if s ≠ [] ∧ s.all Char.isDigit ∧ (s.length = 1 ∨ s.head? ≠ some '0') then
    let n := s.foldl (fun a c => 10 * a + (c.toNat - 48)) 0
    if n < 4294967295 then some n else none
  else none

/-- Distinct keys in order of first insertion (auxiliary: `seen` collects
the keys already emitted). -/
def firstKeysAux (seen : List Str) : List Str → List Str
  | [] => []
  | a :: l => if a ∈ seen then firstKeysAux seen l else a :: firstKeysAux (a :: seen) l

/-- Distinct keys in order of first insertion. -/
def firstKeys (l : List Str) : List Str := firstKeysAux [] l

/-- `Object.entries` enumeration order over the count map: array-index-like
keys first in ascending numeric order, then the remaining keys in
insertion order. -/
def jsKeyOrder (keys : List Str) : List Str :=
  (keys.filter (fun k => (arrayIndex? k).isSome)).insertionSort
      (fun a b => (arrayIndex? a).getD 0 ≤ (arrayIndex? b).getD 0)
    ++ keys.filter (fun k => (arrayIndex? k).isNone)

/-- `findRepeatedLines`: count each non-empty candidate string and keep
those whose count reaches `Math.floor(pageCount * 0.7)`, in
`Object.entries` order. -/
def findRepeatedLines (pageCount : ℕ) (linesArr : List Str) : List Str :=
  (jsKeyOrder (firstKeys (linesArr.filter (fun l => l ≠ [])))).filter
    (fun l => jsFloorMul07 pageCount ≤ linesArr.count l)

/-- `Math.max(...fontSizes)` over a (nonempty) list of heights; lines are
nonempty by construction, so the `[]` default is never consulted. -/
def maxFont : List ℤ → ℤ
  | [] => 0
  | h :: t => t.foldl max h

/-- The heading test of Strategy B: at least `Math.floor(line.length * 0.7)`
fragments carry the line's maximum height, and that height exceeds 10. -/
@[reducible] def headingCond (line : List Frag) : Prop :=
  jsFloorMul07 line.length ≤
      ((line.map Frag.height).filter
        (fun h => h = maxFont (line.map Frag.height))).length
    ∧ 10 < maxFont (line.map Frag.height)

/-- Per-line block construction inside the Strategy B assembly. -/
def classifyLine (line : List Frag) : NBlock :=
  if headingCond line then ⟨BType.heading_2, lineText line⟩
  else ⟨BType.paragraph, lineText line⟩

/-- The body blocks: one block per non-empty line whose text matches no
repeated header/footer, over all pages in original order. -/
def bodyBlocks (pages : List (List Frag)) (hs fs : List Str) : List NBlock :=
  ((pages.map groupLines).flatten).filterMap fun line =>
    if lineText line = [] then none
    else if lineText line ∈ hs ∨ lineText line ∈ fs then none
    else some (classifyLine line)

/-- The repeated headers detected for a document. -/
def repeatedHeadersOf (pages : List (List Frag)) : List Str :=
  findRepeatedLines pages.length (firstLines pages)

/-- The repeated footers detected for a document. -/
def repeatedFootersOf (pages : List (List Frag)) : List Str :=
  findRepeatedLines pages.length (lastLines pages)

/-- Strategy B assembly (`parsePDF` block construction): body blocks, with
the first detected repeated header prepended once and the first detected
repeated footer appended once, each as a `paragraph` block. -/
def parsePDFBlocks (pages : List (List Frag)) : List NBlock :=
  (match repeatedHeadersOf pages with
    | [] => bodyBlocks pages (repeatedHeadersOf pages) (repeatedFootersOf pages)
    | h :: _ =>
        ⟨BType.paragraph, h⟩ ::
          bodyBlocks pages (repeatedHeadersOf pages) (repeatedFootersOf pages))
  ++ (match repeatedFootersOf pages with
    | [] => []
    | f :: _ => [⟨BType.paragraph, f⟩])

/-!
Publish adapter (`/api/notion/create`): the request blocks arrive as
`{ type, text }` records whose `type` is an arbitrary string, and are
mapped to the external API's block shapes.  Two handler variants exist:
the full one (first `server.js` handler, also the `part_001` handler)
with a `bulleted_list_item` case, and the reduced one (second `server.js`
handler) without it.
-/

/-- An incoming block of the create-page request: `type` is an arbitrary
string tag. -/
structure RawBlock where
  type : Str
  text : Str
deriving DecidableEq, Repr

/-- The external API's block shapes: a typed container holding a list of
rich-text runs. -/
inductive NotionOut where
  | heading2 (richText : List Str)
  | bulletedListItem (richText : List Str)
  | paragraphShape (richText : List Str)
deriving DecidableEq, Repr

/-- Per-block mapping of the full handler (first `server.js`
`/api/notion/create` and the `part_001` handler): `heading_2` and
`bulleted_list_item` are recognized, everything else defaults to the
paragraph shape. -/
def toNotionBlock (b : RawBlock) : NotionOut :=
  if b.type = "heading_2".toList then NotionOut.heading2 [b.text]
  else if b.type = "bulleted_list_item".toList then NotionOut.bulletedListItem [b.text]
  else NotionOut.paragraphShape [b.text]

/-- Per-block mapping of the reduced handler (second `server.js`
`/api/notion/create`): only `heading_2` is recognized; everything else,
including `bulleted_list_item`, defaults to the paragraph shape. -/
def toNotionBlockNoBullet (b : RawBlock) : NotionOut :=
  if b.type = "heading_2".toList then NotionOut.heading2 [b.text]
  else NotionOut.paragraphShape [b.text]

/-!
AI-response text salvage (`/api/ai/structure` of `part_001`): strip
Markdown code-fence lines, try to parse the remainder as JSON, and if a
JSON array results, extract per-element text along the block shapes'
rich-text paths; on any parse failure the raw response string is used
verbatim.  `JSON.parse` is an external runtime facility; it is modelled
here by an executable recursive-descent parser for the JSON fragment this
path can meet (strings with simple escapes, decimal numbers — recorded
only up to the nonzero-ness that JavaScript truthiness tests observe —
booleans, null, arrays, objects).
-/

/-- JSON values, as produced by the modelled `JSON.parse`. -/
inductive JVal where
  | jnull
  | jbool (b : Bool)
  | jnum (n : ℤ)
  | jstr (s : Str)
  | jarr (xs : List JVal)
  | jobj (kvs : List (Str × JVal))

/-- JSON insignificant whitespace. -/
def skipWs (s : Str) : Str := s.dropWhile isWs

/-- Parse the remainder of a JSON string literal (after the opening
quote), handling the simple escapes; returns the decoded text and the
rest of the input. -/
def parseStrAux : Str → Option (Str × Str)
  | [] => none
  | c :: rest =>
    if c = '"' then some ([], rest)
    else if c = '\\' then
      match rest with
      | [] => none
      | e :: rest2 =>
        let ec := if e = 'n' then '\n' else if e = 't' then '\t'
          else if e = 'r' then '\r' else e
        match parseStrAux rest2 with
        | none => none
        | some (tail, r) => some (ec :: tail, r)
    else
      match parseStrAux rest with
      | none => none
      | some (tail, r) => some (c :: tail, r)

/-- Decimal digit run, with its value. -/
def parseDigits (s : Str) : Option (ℕ × Str) :=
  let ds := s.takeWhile Char.isDigit
  if ds = [] then none
  else some (ds.foldl (fun a c => 10 * a + (c.toNat - 48)) 0, s.drop ds.length)

/-- Parse a JSON number.  The stored integer concatenates the integral and
fractional digits, which preserves exactly the zero-versus-nonzero
distinction JavaScript truthiness later observes. -/
def parseNum (s : Str) : Option (JVal × Str) :=
  let signed : Bool × Str := match s with
    | '-' :: r => (true, r)
    | _ => (false, s)
  match parseDigits signed.2 with
  | none => none
  | some (ip, r1) =>
    let fracPart : Option (ℕ × Str) := match r1 with
      | '.' :: r2 =>
        (match parseDigits r2 with
          | none => none
          | some (fp, r3) => some (fp, r3))
      | _ => some (0, r1)
    match fracPart with
    | none => none
    | some (fp, r4) =>
      let expPart : Option Str := match r4 with
        | 'e' :: r5 =>
          (match r5 with
            | '+' :: r6 => (parseDigits r6).map Prod.snd
            | '-' :: r6 => (parseDigits r6).map Prod.snd
            | _ => (parseDigits r5).map Prod.snd)
        | 'E' :: r5 =>
          (match r5 with
            | '+' :: r6 => (parseDigits r6).map Prod.snd
            | '-' :: r6 => (parseDigits r6).map Prod.snd
            | _ => (parseDigits r5).map Prod.snd)
        | _ => some r4
      match expPart with
      | none => none
      | some r7 =>
        let mag : ℤ := (ip + fp : ℕ)
        some (JVal.jnum (if signed.1 then -mag else mag), r7)

mutual

/-- Parse one JSON value at the head of the input. -/
def parseVal : ℕ → Str → Option (JVal × Str)
  | 0, _ => none
  | fuel + 1, s =>
    match s with
    | [] => none
    | c :: rest =>
      if c = '\x7b' then
        match skipWs rest with
        | '\x7d' :: r => some (JVal.jobj [], r)
        | s' => parseObjItems fuel s' []
      else if c = '[' then
        match skipWs rest with
        | ']' :: r => some (JVal.jarr [], r)
        | s' => parseArrItems fuel s' []
      else if c = '"' then
        match parseStrAux rest with
        | none => none
        | some (str, r) => some (JVal.jstr str, r)
      else if List.isPrefixOf "true".toList s then some (JVal.jbool true, s.drop 4)
      else if List.isPrefixOf "false".toList s then some (JVal.jbool false, s.drop 5)
      else if List.isPrefixOf "null".toList s then some (JVal.jnull, s.drop 4)
      else parseNum s

/-- Parse the members of a JSON object (after at least one is known to
follow). -/
def parseObjItems : ℕ → Str → List (Str × JVal) → Option (JVal × Str)
  | 0, _, _ => none
  | fuel + 1, s, acc =>
    match skipWs s with
    | '"' :: r =>
      (match parseStrAux r with
        | none => none
        | some (key, r2) =>
          match skipWs r2 with
          | ':' :: r3 =>
            (match parseVal fuel (skipWs r3) with
              | none => none
              | some (v, r4) =>
                match skipWs r4 with
                | ',' :: r5 => parseObjItems fuel r5 (acc ++ [(key, v)])
                | '\x7d' :: r5 => some (JVal.jobj (acc ++ [(key, v)]), r5)
                | _ => none)
          | _ => none)
    | _ => none

/-- Parse the items of a JSON array (after at least one is known to
follow). -/
def parseArrItems : ℕ → Str → List JVal → Option (JVal × Str)
  | 0, _, _ => none
  | fuel + 1, s, acc =>
    match parseVal fuel (skipWs s) with
    | none => none
    | some (v, r) =>
      match skipWs r with
      | ',' :: r2 => parseArrItems fuel r2 (acc ++ [v])
      | ']' :: r2 => some (JVal.jarr (acc ++ [v]), r2)
      | _ => none

end

/-- Model of `JSON.parse`: parse one value and require only trailing
whitespace after it. -/
def parseJsonModel (s : Str) : Option JVal :=
  match parseVal (s.length + 1) (skipWs s) with
  | none => none
  | some (v, r) => if skipWs r = [] then some v else none

/-- JavaScript truthiness of a parsed JSON value. -/
def jTruthy : JVal → Bool
  | JVal.jnull => false
  | JVal.jbool b => b
  | JVal.jnum n => n ≠ 0
  | JVal.jstr s => s ≠ []
  | JVal.jarr _ => true
  | JVal.jobj _ => true

/-- Property access `v[k]`: defined on objects (duplicate keys: last one
wins, as in `JSON.parse`), undefined elsewhere. -/
def jGet (v : JVal) (k : Str) : Option JVal :=
  match v with
  | JVal.jobj kvs => ((kvs.filter (fun kv => kv.1 = k)).getLast?).map Prod.snd
  | _ => none

/-- Index access `v[0]`: defined on arrays, undefined elsewhere. -/
def jIndex (v : JVal) (i : ℕ) : Option JVal :=
  match v with
  | JVal.jarr xs => xs.get? i
  | _ => none

/-- Truthiness of a possibly-undefined value. -/
def jTruthyO : Option JVal → Bool
  | none => false
  | some v => jTruthy v

/-- The string content of a value, for the final `.content` / `.text`
reads (non-string content is not produced by this pipeline and reads as
empty). -/
def jContentStr : Option JVal → Str
  | some (JVal.jstr s) => s
  | _ => []

/-- The guarded path `block.<field>.rich_text[0].text.content` of the
salvage step: `some` exactly when every step of the chain is truthy (the
handler then returns the `content` read, empty if absent). -/
def richPathText (b : JVal) (field : Str) : Option Str :=
  match jGet b field with
  | none => none
  | some p =>
    if jTruthy p then
      match jGet p "rich_text".toList with
      | none => none
      | some rt =>
        if jTruthy rt then
          match jIndex rt 0 with
          | none => none
          | some r0 =>
            if jTruthy r0 then
              match jGet r0 "text".toList with
              | none => none
              | some tx =>
                if jTruthy tx then some (jContentStr (jGet tx "content".toList))
                else none
            else none
        else none
    else none

/-- Per-element text extraction of the salvage step: the paragraph path,
else the heading path, else a truthy flat `text` field, else empty. -/
def extractText (b : JVal) : Str :=
  match richPathText b ("paragraph".toList) with
  | some s => s
  | none =>
    match richPathText b ("heading_1".toList) with
    | some s => s
    | none =>
      match jGet b ("text".toList) with
      | some (JVal.jstr s) => if s ≠ [] then s else []
      | _ => []

/-- Model of `s.split('\n')`. -/
def splitNl : Str → List Str
  | [] => [[]]
  | c :: rest =>
    if c = '\n' then [] :: splitNl rest
    else
      match splitNl rest with
      | [] => [[c]]
      | p :: ps => (c :: p) :: ps

/-- Fence stripping: if the trimmed response starts with three backticks,
drop every line that (trimmed) starts with three backticks. -/
def stripFences (raw : Str) : Str :=
  if List.isPrefixOf ("```".toList) (trim raw) then
    joinSep ['\n']
      ((splitNl raw).filter (fun l => ¬ List.isPrefixOf ("```".toList) (trim l)))
  else raw

/-- The salvage step of `/api/ai/structure` (`part_001`): fence-strip,
attempt `JSON.parse`; a parsed array is mapped to its elements' extracted
texts joined by blank lines (empty extractions dropped); any parse
failure or non-array result keeps the raw response verbatim. -/
def aiStructureText (raw : Str) : Str :=
  match parseJsonModel (stripFences raw) with
  | none => raw
  | some v =>
    match v with
    | JVal.jarr xs =>
        joinSep ('\n' :: '\n' :: [])
          ((xs.map extractText).filter (fun t => t ≠ []))
    | _ => raw

/-!
Concrete documents and inputs used to instantiate and to refute the
stated properties.
-/

/-- A two-page document whose pages carry the distinct first-line texts
`H1` and `H2` and the shared last-line text `F`. -/
def docTwoPages : List (List Frag) :=
  [[⟨"H1".toList, 0, 5⟩, ⟨"F".toList, 10, 5⟩],
   [⟨"H2".toList, 0, 5⟩, ⟨"F".toList, 10, 5⟩]]

/-- A one-page document with a single one-fragment line. -/
def docOnePage : List (List Frag) := [[⟨"H".toList, 0, 5⟩]]

/-- A tall title fragment. -/
def titleFrag : Frag := ⟨"Title".toList, 0, 12⟩

/-- A smaller body-text fragment on a lower line. -/
def bodyTextFrag : Frag := ⟨"body text here".toList, 20, 8⟩

/-- A one-page document with two lines: a tall title line and a smaller
body line. -/
def docTitleBody : List (List Frag) := [[titleFrag, bodyTextFrag]]

/-- A single tall fragment forming a heading-sized line. -/
def tallFrag : Frag := ⟨"T".toList, 0, 12⟩

/-- A 90-fragment line on which exactly 62 fragments carry the maximum
height 12: `Math.floor(90 * 0.7) = 62` in doubles, while the exact
`floor(0.7 * 90)` is 63. -/
def line90 : List Frag :=
  List.replicate 62 ⟨"a".toList, 0, 12⟩ ++ List.replicate 28 ⟨"a".toList, 0, 8⟩

/-- A Strategy A input with a doubled bullet marker and a whitespace-padded
lone bullet marker. -/
def bulletEdgeInput : Str :=
  "- - item.\n\n".toList ++ List.replicate 99 ' ' ++ ['•']

/-- A Strategy A input whose raw segment has length 100 but whose trimmed
text is the two-character `Hi`. -/
def paddedHeadingInput : Str := 'H' :: 'i' :: List.replicate 98 ' '

/-!
Supporting lemmas about `trim`.
-/

theorem head?_dropWhileWs {l : Str} {c : Char}
    (h : (l.dropWhile isWs).head? = some c) : isWs c = false := by
  induction l with
  | nil => simp [List.dropWhile] at h
  | cons a t ih =>
    rw [List.dropWhile_cons] at h
    by_cases hp : isWs a = true
    · rw [if_pos hp] at h
      exact ih h
    · rw [if_neg hp] at h
      simp only [List.head?_cons, Option.some.injEq] at h
      subst h
      simpa using hp

theorem dropWhileWs_eq_self {l : Str}
    (h : ∀ c, l.head? = some c → isWs c = false) : l.dropWhile isWs = l := by
  cases l with
  | nil => rfl
  | cons a t =>
    rw [List.dropWhile_cons, if_neg]
    simp [h a rfl]

theorem suffix_getLast? {l₁ l₂ : Str} (h : l₁ <:+ l₂) (hne : l₁ ≠ []) :
    l₁.getLast? = l₂.getLast? := by
  obtain ⟨t, rfl⟩ := h
  rw [List.getLast?_append]
  cases hg : l₁.getLast? with
  | none => exact absurd (List.getLast?_eq_none_iff.mp hg) hne
  | some x => rfl

theorem trim_head?_ws {s : Str} {c : Char}
    (h : (trim s).head? = some c) : isWs c = false := by
  unfold trim at h
  rw [List.head?_reverse] at h
  have hbne : (s.dropWhile isWs).reverse.dropWhile isWs ≠ [] := by
    intro hb0
    rw [hb0] at h
    simp at h
  rw [suffix_getLast? (List.dropWhile_suffix _) hbne, List.getLast?_reverse] at h
  exact head?_dropWhileWs h

theorem trim_getLast?_ws {s : Str} {c : Char}
    (h : (trim s).getLast? = some c) : isWs c = false := by
  unfold trim at h
  rw [List.getLast?_reverse] at h
  exact head?_dropWhileWs h

theorem trim_eq_self {s : Str}
    (hf : ∀ c, s.head? = some c → isWs c = false)
    (hb : ∀ c, s.getLast? = some c → isWs c = false) : trim s = s := by
  unfold trim
  rw [dropWhileWs_eq_self hf,
    dropWhileWs_eq_self (fun c hc => hb c (by rwa [List.head?_reverse] at hc))]
  exact List.reverse_reverse s

theorem trim_trim (s : Str) : trim (trim s) = trim s :=
  trim_eq_self (fun _ h => trim_head?_ws h) (fun _ h => trim_getLast?_ws h)

theorem trim_eq_self_of_suffix {s x : Str} (hx : x <:+ trim s)
    (hf : ∀ c, x.head? = some c → isWs c = false) : trim x = x := by
  apply trim_eq_self hf
  intro c hc
  have hxne : x ≠ [] := by
    intro h0
    rw [h0] at hc
    simp at hc
  rw [suffix_getLast? hx hxne] at hc
  exact trim_getLast?_ws hc

theorem trim_infix_self (s : Str) : trim s <:+: s := by
  have h1 : s.dropWhile isWs <:+ s := List.dropWhile_suffix _
  have h2 : (s.dropWhile isWs).reverse.dropWhile isWs <:+ (s.dropWhile isWs).reverse :=
    List.dropWhile_suffix _
  have h3 : trim s <+: s.dropWhile isWs := by
    unfold trim
    rw [← List.reverse_reverse (s.dropWhile isWs), List.reverse_prefix]
    simpa using h2
  exact h3.isInfix.trans h1.isInfix

theorem trim_length_le (s : Str) : (trim s).length ≤ s.length :=
  (trim_infix_self s).length_le

theorem noSep_mono {x t : Str} (hx : x <:+: t) (hn : noSep t) : noSep x :=
  fun hi => hn (hi.trans hx)

/-!
Supporting lemmas about `splitBlank` and `joinBlank`.
-/

theorem noSep_nil : noSep ([] : Str) := by
  intro hi
  simpa using hi.length_le

theorem noSep_single (c : Char) : noSep [c] := by
  intro hi
  simpa using hi.length_le

theorem splitBlank_sep_cons (rest : Str) :
    splitBlank ('\n' :: '\n' :: rest) = [] :: splitBlank rest := by
  simp [splitBlank]

theorem splitBlank_cons_cons {c1 c2 : Char} (rest : Str) (h : ¬(c1 = '\n' ∧ c2 = '\n')) :
    splitBlank (c1 :: c2 :: rest) =
      match splitBlank (c2 :: rest) with
      | [] => [[c1]]
      | p :: ps => (c1 :: p) :: ps := by
  simp only [splitBlank]
  rw [if_neg h]

theorem splitBlank_ne_nil (s : Str) : splitBlank s ≠ [] := by
  induction s using splitBlank.induct with
  | case1 => simp [splitBlank]
  | case2 c => simp [splitBlank]
  | case3 c1 c2 rest h ih =>
    obtain ⟨rfl, rfl⟩ := h
    rw [splitBlank_sep_cons]
    simp
  | case4 c1 c2 rest h hs ih =>
    rw [splitBlank_cons_cons rest h, hs]
    simp
  | case5 c1 c2 rest h p ps hs ih =>
    rw [splitBlank_cons_cons rest h, hs]
    simp

theorem head?_splitBlank (s : Str) :
    ∀ p ps, splitBlank s = p :: ps → p = [] ∨ p.head? = s.head? := by
  induction s using splitBlank.induct with
  | case1 =>
    intro p ps h
    simp [splitBlank] at h
    exact Or.inl h.1
  | case2 c =>
    intro p ps h
    simp [splitBlank] at h
    rw [h.1]
    exact Or.inr rfl
  | case3 c1 c2 rest h ih =>
    intro p ps hp
    obtain ⟨rfl, rfl⟩ := h
    rw [splitBlank_sep_cons] at hp
    injection hp with h1 h2
    exact Or.inl h1.symm
  | case4 c1 c2 rest h hs ih =>
    exact absurd hs (splitBlank_ne_nil _)
  | case5 c1 c2 rest h p ps hs ih =>
    intro q qs hq
    rw [splitBlank_cons_cons rest h, hs] at hq
    have hq' : (c1 :: p) :: ps = q :: qs := hq
    injection hq' with h1 h2
    rw [← h1]
    exact Or.inr rfl

theorem infix_pair_cons {x y a : Char} {l : Str} (h : [x, y] <:+: a :: l) :
    (x = a ∧ l.head? = some y) ∨ [x, y] <:+: l := by
  obtain ⟨s, t, hst⟩ := h
  cases s with
  | nil =>
    simp only [List.nil_append, List.cons_append, List.cons.injEq] at hst
    obtain ⟨rfl, h2⟩ := hst
    left
    refine ⟨rfl, ?_⟩
    rw [← h2]
    simp
  | cons b s' =>
    right
    refine ⟨s', t, ?_⟩
    simpa using congrArg List.tail hst

theorem pieces_noSep (s : Str) : ∀ p ∈ splitBlank s, noSep p := by
  induction s using splitBlank.induct with
  | case1 =>
    intro p hp
    simp [splitBlank] at hp
    rw [hp]
    exact noSep_nil
  | case2 c =>
    intro p hp
    simp [splitBlank] at hp
    rw [hp]
    exact noSep_single c
  | case3 c1 c2 rest h ih =>
    intro p hp
    obtain ⟨rfl, rfl⟩ := h
    rw [splitBlank_sep_cons] at hp
    rcases List.mem_cons.mp hp with rfl | hp'
    · exact noSep_nil
    · exact ih p hp'
  | case4 c1 c2 rest h hs ih =>
    exact absurd hs (splitBlank_ne_nil _)
  | case5 c1 c2 rest h p ps hs ih =>
    intro q hq
    rw [splitBlank_cons_cons rest h, hs] at hq
    rcases List.mem_cons.mp hq with rfl | hq'
    · have hp : noSep p := ih p (hs ▸ List.mem_cons_self _ _)
      intro hi
      rcases infix_pair_cons hi with ⟨rfl, hhd⟩ | hi'
      · rcases head?_splitBlank (c2 :: rest) p ps hs with rfl | hph
        · simp at hhd
        · rw [hph] at hhd
          simp only [List.head?_cons, Option.some.injEq] at hhd
          exact h ⟨rfl, hhd⟩
      · exact hp hi'
    · exact ih q (hs ▸ List.mem_cons_of_mem _ hq')

theorem splitBlank_noSep {s : Str} (h : noSep s) : splitBlank s = [s] := by
  induction s using splitBlank.induct with
  | case1 => rfl
  | case2 c => rfl
  | case3 c1 c2 rest hc ih =>
    obtain ⟨rfl, rfl⟩ := hc
    exact absurd ⟨[], rest, rfl⟩ h
  | case4 c1 c2 rest hc hs ih =>
    exact absurd hs (splitBlank_ne_nil _)
  | case5 c1 c2 rest hc p ps hs ih =>
    have hrest : noSep (c2 :: rest) := noSep_mono (List.suffix_cons c1 _).isInfix h
    have h2 := ih hrest
    rw [hs] at h2
    injection h2 with h3 h4
    subst h3
    subst h4
    rw [splitBlank_cons_cons rest hc, hs]

theorem splitBlank_append_sep :
    ∀ t rest : Str, noSep t → t.getLast? ≠ some '\n' →
      splitBlank (t ++ '\n' :: '\n' :: rest) = t :: splitBlank rest := by
  intro t
  induction t using splitBlank.induct with
  | case1 =>
    intro rest h1 h2
    rw [List.nil_append, splitBlank_sep_cons]
  | case2 a =>
    intro rest h1 h2
    have ha : a ≠ '\n' := by
      intro hae
      exact h2 (by rw [hae]; rfl)
    have hguard : ¬(a = '\n' ∧ ('\n' : Char) = '\n') := fun hc => ha hc.1
    rw [List.cons_append, List.nil_append, splitBlank_cons_cons _ hguard,
      splitBlank_sep_cons]
  | case3 c1 c2 rest' hc ih =>
    intro rest h1 h2
    obtain ⟨rfl, rfl⟩ := hc
    exact absurd ⟨[], rest', rfl⟩ h1
  | case4 c1 c2 rest' hc hs ih =>
    intro rest h1 h2
    have hrest : noSep (c2 :: rest') := noSep_mono (List.suffix_cons c1 _).isInfix h1
    have hlast : (c2 :: rest').getLast? ≠ some '\n' := by
      rwa [List.getLast?_cons_cons] at h2
    have hrec := ih rest hrest hlast
    simp only [List.cons_append] at hrec ⊢
    rw [splitBlank_cons_cons _ hc, hrec]
  | case5 c1 c2 rest' hc p ps hs ih =>
    intro rest h1 h2
    have hrest : noSep (c2 :: rest') := noSep_mono (List.suffix_cons c1 _).isInfix h1
    have hlast : (c2 :: rest').getLast? ≠ some '\n' := by
      rwa [List.getLast?_cons_cons] at h2
    have hrec := ih rest hrest hlast
    simp only [List.cons_append] at hrec ⊢
    rw [splitBlank_cons_cons _ hc, hrec]

theorem splitBlank_joinBlank :
    ∀ ts : List Str, (∀ t ∈ ts, noSep t ∧ t.getLast? ≠ some '\n') → ts ≠ [] →
      splitBlank (joinBlank ts) = ts := by
  intro ts
  induction ts with
  | nil => intro _ h; exact absurd rfl h
  | cons t ts' ih =>
    intro h _
    cases ts' with
    | nil =>
      show splitBlank (joinSep _ [t]) = [t]
      rw [joinSep]
      exact splitBlank_noSep (h t (List.mem_cons_self _ _)).1
    | cons u ts'' =>
      have hj : joinBlank (t :: u :: ts'') = t ++ '\n' :: '\n' :: joinBlank (u :: ts'') := by
        simp [joinBlank, joinSep, List.append_assoc]
      rw [hj, splitBlank_append_sep t _ (h t (List.mem_cons_self _ _)).1
        (h t (List.mem_cons_self _ _)).2]
      congr 1
      exact ih (fun x hx => h x (List.mem_cons_of_mem _ hx)) (List.cons_ne_nil u ts'')

/-!
Properties of the Strategy A classifier's output texts.
-/

theorem stripMarker_suffix (s : Str) : stripMarker s <:+ s := by
  cases s with
  | nil => exact List.suffix_refl _
  | cons c rest =>
    simp only [stripMarker]
    by_cases h : c = '•' ∨ c = '-'
    · rw [if_pos h]
      exact (List.dropWhile_suffix _).trans (List.suffix_cons c rest)
    · rw [if_neg h]

theorem classifySeg_text_trim (p : Str) : trim (classifySeg p).text = (classifySeg p).text := by
  by_cases h1 : p.length < 100 ∧ p.getLast? ≠ some '.'
  · unfold classifySeg
    rw [if_pos h1]
    exact trim_trim p
  · unfold classifySeg
    rw [if_neg h1]
    by_cases h2 : isBulletStart (trim p)
    · rw [if_pos h2]
      show trim (stripMarker (trim p)) = stripMarker (trim p)
      cases htp : trim p with
      | nil =>
        rw [htp] at h2
        simp [isBulletStart] at h2
      | cons c rest =>
        simp only [stripMarker]
        by_cases hm : c = '•' ∨ c = '-'
        · rw [if_pos hm]
          have hsfx : rest.dropWhile isWs <:+ c :: rest :=
            (List.dropWhile_suffix _).trans (List.suffix_cons c rest)
          exact trim_eq_self_of_suffix (htp ▸ hsfx) (fun c' hc' => head?_dropWhileWs hc')
        · rw [if_neg hm]
          rw [← htp]
          exact trim_trim p
    · rw [if_neg h2]
      exact trim_trim p

theorem classifySeg_text_infix_self (p : Str) : (classifySeg p).text <:+: p := by
  by_cases h1 : p.length < 100 ∧ p.getLast? ≠ some '.'
  · unfold classifySeg
    rw [if_pos h1]
    exact trim_infix_self p
  · unfold classifySeg
    rw [if_neg h1]
    by_cases h2 : isBulletStart (trim p)
    · rw [if_pos h2]
      exact ((stripMarker_suffix (trim p)).isInfix).trans (trim_infix_self p)
    · rw [if_neg h2]
      exact trim_infix_self p

theorem classifySeg_text_ne (p : Str) (h : trim p ≠ [])
    (ht : (classifySeg p).type ≠ BType.bulleted_list_item) : (classifySeg p).text ≠ [] := by
  by_cases h1 : p.length < 100 ∧ p.getLast? ≠ some '.'
  · unfold classifySeg
    rw [if_pos h1]
    exact h
  · by_cases h2 : isBulletStart (trim p)
    · exfalso
      apply ht
      unfold classifySeg
      rw [if_neg h1, if_pos h2]
    · unfold classifySeg
      rw [if_neg h1, if_neg h2]
      exact h

theorem classifySeg_type_heading (p : Str) :
    (classifySeg p).type = BType.heading_2 ↔ (p.length < 100 ∧ p.getLast? ≠ some '.') := by
  by_cases h1 : p.length < 100 ∧ p.getLast? ≠ some '.'
  · unfold classifySeg
    rw [if_pos h1]
    simpa using h1
  · unfold classifySeg
    rw [if_neg h1]
    by_cases h2 : isBulletStart (trim p)
    · rw [if_pos h2]
      simpa using h1
    · rw [if_neg h2]
      simpa using h1

theorem classifySeg_bullet (p : Str)
    (h : (classifySeg p).type = BType.bulleted_list_item) :
    isBulletStart (trim p) ∧ (classifySeg p).text = stripMarker (trim p) := by
  by_cases h1 : p.length < 100 ∧ p.getLast? ≠ some '.'
  · exfalso
    unfold classifySeg at h
    rw [if_pos h1] at h
    exact BType.noConfusion h
  · by_cases h2 : isBulletStart (trim p)
    · refine ⟨h2, ?_⟩
      unfold classifySeg
      rw [if_neg h1, if_pos h2]
    · exfalso
      unfold classifySeg at h
      rw [if_neg h1, if_neg h2] at h
      exact BType.noConfusion h

theorem classifySeg_heading_len (p : Str) (h : (classifySeg p).type = BType.heading_2) :
    (classifySeg p).text.length < 100 := by
  have h1 := (classifySeg_type_heading p).mp h
  unfold classifySeg
  rw [if_pos h1]
  exact lt_of_le_of_lt (trim_length_le p) h1.1

theorem strategyA_block_props {s : Str} {b : NBlock} (hb : b ∈ textToNotionBlocks s) :
    trim b.text = b.text ∧ noSep b.text ∧
      (b.type ≠ BType.bulleted_list_item → b.text ≠ []) ∧
      (b.type = BType.heading_2 → b.text.length < 100) := by
  unfold textToNotionBlocks at hb
  obtain ⟨p, hp, rfl⟩ := List.mem_map.mp hb
  unfold paragraphsOf at hp
  have hp2 := List.mem_filter.mp hp
  have hpsep : noSep p := pieces_noSep s p hp2.1
  have htp : trim p ≠ [] := by simpa using hp2.2
  exact ⟨classifySeg_text_trim p, noSep_mono (classifySeg_text_infix_self p) hpsep,
    classifySeg_text_ne p htp, fun h => classifySeg_heading_len p h⟩

/-!
Supporting lemmas about the Strategy B pipeline.
-/

theorem classifyLine_text (line : List Frag) : (classifyLine line).text = lineText line := by
  unfold classifyLine
  split <;> rfl

theorem lineText_trim (line : List Frag) : trim (lineText line) = lineText line :=
  trim_trim _

theorem mem_bodyBlocks_iff {pages : List (List Frag)} {hs fs : List Str} {b : NBlock} :
    b ∈ bodyBlocks pages hs fs ↔
      ∃ line ∈ (pages.map groupLines).flatten,
        b = classifyLine line ∧ lineText line ≠ [] ∧
          lineText line ∉ hs ∧ lineText line ∉ fs := by
  unfold bodyBlocks
  rw [List.mem_filterMap]
  constructor
  · rintro ⟨line, hline, hf⟩
    by_cases h1 : lineText line = []
    · simp [h1] at hf
    · by_cases h2 : lineText line ∈ hs ∨ lineText line ∈ fs
      · simp [h1, h2] at hf
      · rw [if_neg h1, if_neg h2] at hf
        simp only [Option.some.injEq] at hf
        exact ⟨line, hline, hf.symm, h1, (not_or.mp h2).1, (not_or.mp h2).2⟩
  · rintro ⟨line, hline, rfl, h1, h2, h3⟩
    refine ⟨line, hline, ?_⟩
    simp [h1, h2, h3]

theorem mem_firstKeysAux :
    ∀ (l seen : List Str) (x : Str), x ∈ firstKeysAux seen l ↔ x ∈ l ∧ x ∉ seen := by
  intro l
  induction l with
  | nil =>
    intro seen x
    simp [firstKeysAux]
  | cons a t ih =>
    intro seen x
    by_cases ha : a ∈ seen
    · rw [show firstKeysAux seen (a :: t) = firstKeysAux seen t by
        simp only [firstKeysAux, if_pos ha]]
      rw [ih seen x]
      constructor
      · rintro ⟨hx, hns⟩
        exact ⟨List.mem_cons_of_mem _ hx, hns⟩
      · rintro ⟨hx, hns⟩
        rcases List.mem_cons.mp hx with rfl | hx'
        · exact absurd ha hns
        · exact ⟨hx', hns⟩
    · rw [show firstKeysAux seen (a :: t) = a :: firstKeysAux (a :: seen) t by
        simp only [firstKeysAux, if_neg ha]]
      constructor
      · intro hx
        rcases List.mem_cons.mp hx with rfl | hx'
        · exact ⟨List.mem_cons_self _ _, ha⟩
        · have h2 := (ih (a :: seen) x).mp hx'
          exact ⟨List.mem_cons_of_mem _ h2.1,
            fun hxs => h2.2 (List.mem_cons_of_mem _ hxs)⟩
      · rintro ⟨hx, hns⟩
        rcases List.mem_cons.mp hx with rfl | hx'
        · exact List.mem_cons_self _ _
        · by_cases hxa : x = a
          · subst hxa
            exact List.mem_cons_self _ _
          · refine List.mem_cons_of_mem _ ((ih (a :: seen) x).mpr ⟨hx', ?_⟩)
            intro hxs
            rcases List.mem_cons.mp hxs with h | h
            · exact hxa h
            · exact hns h

theorem mem_firstKeys {l : List Str} {x : Str} : x ∈ firstKeys l ↔ x ∈ l := by
  unfold firstKeys
  rw [mem_firstKeysAux]
  simp

theorem mem_jsKeyOrder {l : List Str} {x : Str} : x ∈ jsKeyOrder l ↔ x ∈ l := by
  unfold jsKeyOrder
  rw [List.mem_append]
  constructor
  · rintro (hx | hx)
    · exact (List.mem_filter.mp (((List.perm_insertionSort _ _).mem_iff).mp hx)).1
    · exact (List.mem_filter.mp hx).1
  · intro hx
    by_cases hi : (arrayIndex? x).isSome
    · left
      exact ((List.perm_insertionSort _ _).mem_iff).mpr
        (List.mem_filter.mpr ⟨hx, by simpa using hi⟩)
    · right
      refine List.mem_filter.mpr ⟨hx, ?_⟩
      have hnone : arrayIndex? x = none := Option.not_isSome_iff_eq_none.mp hi
      simp [hnone]

theorem mem_findRepeatedLines {n : ℕ} {arr : List Str} {a : Str} :
    a ∈ findRepeatedLines n arr ↔ a ∈ arr ∧ a ≠ [] ∧ jsFloorMul07 n ≤ arr.count a := by
  unfold findRepeatedLines
  rw [List.mem_filter, mem_jsKeyOrder, mem_firstKeys, List.mem_filter]
  constructor
  · rintro ⟨⟨ha, hne⟩, hc⟩
    exact ⟨ha, by simpa using hne, by simpa using hc⟩
  · rintro ⟨ha, hne, hc⟩
    exact ⟨⟨ha, by simpa using hne⟩, by simpa using hc⟩

theorem mem_firstLines {pages : List (List Frag)} {a : Str} (h : a ∈ firstLines pages) :
    ∃ line, a = lineText line := by
  unfold firstLines at h
  obtain ⟨p, _, hf⟩ := List.mem_filterMap.mp h
  cases hg : groupLines p with
  | nil =>
    rw [hg] at hf
    simp at hf
  | cons l ls =>
    rw [hg] at hf
    simp only [Option.some.injEq] at hf
    exact ⟨l, hf.symm⟩

theorem mem_lastLines {pages : List (List Frag)} {a : Str} (h : a ∈ lastLines pages) :
    ∃ line, a = lineText line := by
  unfold lastLines at h
  obtain ⟨p, _, hf⟩ := List.mem_filterMap.mp h
  cases hg : groupLines p with
  | nil =>
    rw [hg] at hf
    simp at hf
  | cons l ls =>
    rw [hg] at hf
    simp only [Option.some.injEq] at hf
    exact ⟨(l :: ls).getLast (List.cons_ne_nil l ls), hf.symm⟩

theorem parsePDF_text_props {pages : List (List Frag)} {b : NBlock}
    (hb : b ∈ parsePDFBlocks pages) : trim b.text = b.text ∧ b.text ≠ [] := by
  have hbody : ∀ (hs fs : List Str) (b' : NBlock), b' ∈ bodyBlocks pages hs fs →
      trim b'.text = b'.text ∧ b'.text ≠ [] := by
    intro hs fs b' hb'
    obtain ⟨line, _, rfl, hne, _, _⟩ := mem_bodyBlocks_iff.mp hb'
    rw [classifyLine_text]
    exact ⟨lineText_trim line, hne⟩
  unfold parsePDFBlocks at hb
  rw [List.mem_append] at hb
  rcases hb with hb | hb
  · cases hh : repeatedHeadersOf pages with
    | nil =>
      rw [hh] at hb
      exact hbody _ _ b hb
    | cons h0 hrest =>
      rw [hh] at hb
      rcases List.mem_cons.mp hb with rfl | hb'
      · have hmem : h0 ∈ repeatedHeadersOf pages := by
          rw [hh]
          exact List.mem_cons_self _ _
        have h2 := mem_findRepeatedLines.mp hmem
        obtain ⟨line, rfl⟩ := mem_firstLines h2.1
        exact ⟨lineText_trim line, h2.2.1⟩
      · exact hbody _ _ b hb'
  · cases hf : repeatedFootersOf pages with
    | nil =>
      rw [hf] at hb
      simp at hb
    | cons f0 frest =>
      rw [hf] at hb
      simp only [List.mem_singleton] at hb
      subst hb
      have hmem : f0 ∈ repeatedFootersOf pages := by
        rw [hf]
        exact List.mem_cons_self _ _
      have h2 := mem_findRepeatedLines.mp hmem
      obtain ⟨line, rfl⟩ := mem_lastLines h2.1
      exact ⟨lineText_trim line, h2.2.1⟩

theorem jsKeyOrder_singleton (T : Str) : jsKeyOrder [T] = [T] := by
  unfold jsKeyOrder
  cases hi : arrayIndex? T with
  | none => simp [List.filter, hi]
  | some n => simp [List.filter, hi, List.insertionSort, List.orderedInsert]

theorem findRepeatedLines_singleton (T : Str) (hT : T ≠ []) :
    findRepeatedLines 1 [T] = [T] := by
  unfold findRepeatedLines
  have h1 : ([T] : List Str).filter (fun l => l ≠ []) = [T] := by simp [hT]
  rw [h1]
  have h2 : firstKeys [T] = [T] := by simp [firstKeys, firstKeysAux]
  rw [h2, jsKeyOrder_singleton]
  have h0 : jsFloorMul07 1 = 0 := by decide
  simp [h0]

theorem trimmed_getLast_ne_nl {t : Str} (htr : trim t = t) : t.getLast? ≠ some '\n' := by
  intro hl
  have h2 := trim_getLast?_ws (htr.symm ▸ hl)
  simp [isWs] at h2

theorem rerun_on_trimmed (ts : List Str)
    (hts : ∀ t ∈ ts, trim t = t ∧ noSep t ∧ t ≠ []) :
    textToNotionBlocks (joinBlank ts) = ts.map classifySeg := by
  cases ts with
  | nil => decide
  | cons t ts' =>
    have hsplit : splitBlank (joinBlank (t :: ts')) = t :: ts' := by
      apply splitBlank_joinBlank
      · intro t' ht'
        have h3 := hts t' ht'
        exact ⟨h3.2.1, trimmed_getLast_ne_nl h3.1⟩
      · exact List.cons_ne_nil _ _
    show (paragraphsOf (joinBlank (t :: ts'))).map classifySeg = _
    unfold paragraphsOf
    rw [hsplit]
    congr 1
    apply List.filter_eq_self.mpr
    intro t' ht'
    have h3 := hts t' ht'
    simp [h3.1, h3.2.2]

/-!
Claim theorems.
-/

/-- Claim C1, counterexample: the input `Hi` followed by 98 spaces forms a
single kept segment whose trimmed text has length 2 and no trailing
period, yet Strategy A classifies it as a `paragraph` block — the length
check runs on the raw, untrimmed segment (length 100), not on the trimmed
text as the claim states. -/
theorem c1_counterexample :
    (trim paddedHeadingInput).length < 100 ∧
    (trim paddedHeadingInput).getLast? ≠ some '.' ∧
    paragraphsOf paddedHeadingInput = [paddedHeadingInput] ∧
    textToNotionBlocks paddedHeadingInput = [⟨BType.paragraph, "Hi".toList⟩] := by
  decide

/-- Claim C1, amended: for every kept segment whose RAW (untrimmed) length
is below 100 and which does not end with `.`, Strategy A produces a
Heading block holding the trimmed segment — even when the segment begins
with a bullet marker, since the heading check precedes the bullet check. -/
theorem c1_amended (s p : Str) (hp : p ∈ paragraphsOf s)
    (hlen : p.length < 100) (hdot : p.getLast? ≠ some '.') :
    classifySeg p = ⟨BType.heading_2, trim p⟩ ∧
    (⟨BType.heading_2, trim p⟩ : NBlock) ∈ textToNotionBlocks s := by
  have hcl : classifySeg p = ⟨BType.heading_2, trim p⟩ := by
    unfold classifySeg
    rw [if_pos ⟨hlen, hdot⟩]
  refine ⟨hcl, ?_⟩
  unfold textToNotionBlocks
  exact hcl ▸ List.mem_map_of_mem classifySeg hp

/-- Claim C1, witness: the bullet-prefixed short segment `- item` is
classified as a Heading. -/
theorem c1_witness :
    classifySeg ("- item".toList) = ⟨BType.heading_2, trim ("- item".toList)⟩ ∧
    (⟨BType.heading_2, trim ("- item".toList)⟩ : NBlock) ∈
      textToNotionBlocks ("- item".toList) :=
  c1_amended ("- item".toList) ("- item".toList) (by decide) (by decide) (by decide)

/-- Claim C2, counterexample: on `"- item one\n\n- item two"` Strategy A
does not produce two BulletItem blocks. -/
theorem c2_counterexample :
    textToNotionBlocks ("- item one\n\n- item two".toList) ≠
      [⟨BType.bulleted_list_item, "item one".toList⟩,
       ⟨BType.bulleted_list_item, "item two".toList⟩] := by
  decide

/-- Claim C2, amended: both paragraphs are short and unpunctuated, so the
heading check fires first and the input yields two Heading blocks with the
bullet markers left in place. -/
theorem c2_amended :
    textToNotionBlocks ("- item one\n\n- item two".toList) =
      [⟨BType.heading_2, "- item one".toList⟩,
       ⟨BType.heading_2, "- item two".toList⟩] := by
  decide

/-- Claim C9, counterexample: the input `" "` is non-empty and contains no
blank-line separator, yet Strategy A yields zero blocks — the
whitespace-only segment is discarded by the filter. -/
theorem c9_counterexample :
    ((" ".toList : Str) ≠ []) ∧ noSep (" ".toList) ∧
    textToNotionBlocks (" ".toList) = [] := by
  decide

/-- Claim C9, amended: for every input with non-whitespace content (its
trim is non-empty) and no blank-line separator, Strategy A yields exactly
one block. -/
theorem c9_amended (s : Str) (hs : noSep s) (hne : trim s ≠ []) :
    (textToNotionBlocks s).length = 1 := by
  unfold textToNotionBlocks paragraphsOf
  rw [splitBlank_noSep hs]
  simp [hne]

/-- Claim C9, witness: `"Hello"` yields exactly one block. -/
theorem c9_witness : (textToNotionBlocks ("Hello".toList)).length = 1 :=
  c9_amended ("Hello".toList) (by decide) (by decide)

/-- Claim C4, counterexample: on the doubled-marker segment `- - item.`
Strategy A produces a BulletItem whose text still begins with the raw
marker `-`, and on a whitespace-padded lone `•` it produces a BulletItem
with empty text, refuting the non-empty/marker-free text invariant. -/
theorem c4_counterexample :
    textToNotionBlocks bulletEdgeInput =
      [⟨BType.bulleted_list_item, "- item.".toList⟩,
       ⟨BType.bulleted_list_item, []⟩] ∧
    ("- item.".toList).head? = some '-' := by
  decide

/-- Claim C4, amended: every block text of either strategy carries no
leading or trailing whitespace; Heading and Paragraph texts are non-empty,
and so is every Strategy B text.  Every BulletItem block arises from a
kept segment whose trimmed text starts with a marker, and its text is that
trimmed text with exactly the one leading marker and its following
whitespace removed — which may leave a text that is empty or that still
begins with another marker, refuting the claim's non-empty and
marker-free guarantees for BulletItems. -/
theorem c4_amended :
    (∀ s : Str, ∀ b ∈ textToNotionBlocks s,
        trim b.text = b.text ∧ (b.type ≠ BType.bulleted_list_item → b.text ≠ [])) ∧
    (∀ s : Str, ∀ b ∈ textToNotionBlocks s, b.type = BType.bulleted_list_item →
        ∃ p ∈ paragraphsOf s, isBulletStart (trim p) ∧ b.text = stripMarker (trim p)) ∧
    (∀ pages : List (List Frag), ∀ b ∈ parsePDFBlocks pages,
        trim b.text = b.text ∧ b.text ≠ []) := by
  refine ⟨?_, ?_, ?_⟩
  · intro s b hb
    have h := strategyA_block_props hb
    exact ⟨h.1, h.2.2.1⟩
  · intro s b hb htype
    unfold textToNotionBlocks at hb
    obtain ⟨p, hp, rfl⟩ := List.mem_map.mp hb
    exact ⟨p, hp, classifySeg_bullet p htype⟩
  · intro pages b hb
    exact parsePDF_text_props hb

/-- Claim C4, witness: the invariant holds for the Heading block produced
from `"x"`, the BulletItem produced from `"- a."` is the single-marker
strip of its trimmed segment, and the one-page document's Paragraph block
is trimmed and non-empty. -/
theorem c4_witness :
    (trim (⟨BType.heading_2, "x".toList⟩ : NBlock).text =
        (⟨BType.heading_2, "x".toList⟩ : NBlock).text ∧
      ((⟨BType.heading_2, "x".toList⟩ : NBlock).type ≠ BType.bulleted_list_item →
        (⟨BType.heading_2, "x".toList⟩ : NBlock).text ≠ [])) ∧
    (∃ p ∈ paragraphsOf ("- a.".toList), isBulletStart (trim p) ∧
      (⟨BType.bulleted_list_item, "a.".toList⟩ : NBlock).text = stripMarker (trim p)) ∧
    (trim (⟨BType.paragraph, "H".toList⟩ : NBlock).text =
        (⟨BType.paragraph, "H".toList⟩ : NBlock).text ∧
      (⟨BType.paragraph, "H".toList⟩ : NBlock).text ≠ []) :=
  ⟨c4_amended.1 ("x".toList) ⟨BType.heading_2, "x".toList⟩ (by decide),
   c4_amended.2.1 ("- a.".toList) ⟨BType.bulleted_list_item, "a.".toList⟩
     (by decide) (by decide),
   c4_amended.2.2 docOnePage ⟨BType.paragraph, "H".toList⟩ (by decide)⟩

/-- Claim C6, counterexample: the reduced create-page handler (second
`server.js` variant) maps a `bulleted_list_item` block to the paragraph
shape, not to a bulleted-list-item container. -/
theorem c6_counterexample :
    toNotionBlockNoBullet ⟨"bulleted_list_item".toList, "item".toList⟩ =
      NotionOut.paragraphShape ["item".toList] ∧
    toNotionBlockNoBullet ⟨"bulleted_list_item".toList, "item".toList⟩ ≠
      NotionOut.bulletedListItem ["item".toList] := by
  decide

/-- Claim C6, amended: the full handler (first `server.js` variant and the
`part_001` handler) maps `heading_2` to a heading-level-2 container,
`bulleted_list_item` to a bulleted-list-item container and every other
type tag to a paragraph container, each with one rich-text run and never
failing; the reduced second variant recognizes only `heading_2` and sends
everything else — including `bulleted_list_item` — to the paragraph
shape. -/
theorem toNotionBlock_eq (ty t : Str) :
    toNotionBlock ⟨ty, t⟩ =
      if ty = "heading_2".toList then NotionOut.heading2 [t]
      else if ty = "bulleted_list_item".toList then NotionOut.bulletedListItem [t]
      else NotionOut.paragraphShape [t] := rfl

theorem toNotionBlockNoBullet_eq (ty t : Str) :
    toNotionBlockNoBullet ⟨ty, t⟩ =
      if ty = "heading_2".toList then NotionOut.heading2 [t]
      else NotionOut.paragraphShape [t] := rfl

theorem c6_amended (t : Str) :
    toNotionBlock ⟨"heading_2".toList, t⟩ = NotionOut.heading2 [t] ∧
    toNotionBlock ⟨"bulleted_list_item".toList, t⟩ = NotionOut.bulletedListItem [t] ∧
    (∀ ty : Str, ty ≠ "heading_2".toList → ty ≠ "bulleted_list_item".toList →
      toNotionBlock ⟨ty, t⟩ = NotionOut.paragraphShape [t]) ∧
    toNotionBlockNoBullet ⟨"heading_2".toList, t⟩ = NotionOut.heading2 [t] ∧
    (∀ ty : Str, ty ≠ "heading_2".toList →
      toNotionBlockNoBullet ⟨ty, t⟩ = NotionOut.paragraphShape [t]) := by
  refine ⟨?_, ?_, ?_, ?_, ?_⟩
  · rw [toNotionBlock_eq, if_pos rfl]
  · rw [toNotionBlock_eq, if_neg (by decide), if_pos rfl]
  · intro ty h1 h2
    rw [toNotionBlock_eq, if_neg h1, if_neg h2]
  · rw [toNotionBlockNoBullet_eq, if_pos rfl]
  · intro ty h1
    rw [toNotionBlockNoBullet_eq, if_neg h1]

/-- Claim C6, witness: an unrecognized type tag `quote` falls back to the
paragraph shape in both handler variants. -/
theorem c6_witness :
    toNotionBlock ⟨"quote".toList, "x".toList⟩ = NotionOut.paragraphShape ["x".toList] ∧
    toNotionBlockNoBullet ⟨"quote".toList, "x".toList⟩ =
      NotionOut.paragraphShape ["x".toList] :=
  ⟨(c6_amended ("x".toList)).2.2.1 ("quote".toList) (by decide) (by decide),
   (c6_amended ("x".toList)).2.2.2.2 ("quote".toList) (by decide)⟩

/-- Claim C8: the salvage step maps the Markdown-fenced JSON array
`[{"text":"Hello"}]` to the plain text `Hello`, and every input whose
fence-stripped remainder fails to parse as JSON is returned verbatim. -/
theorem c8_salvage :
    aiStructureText ("```json\n[\x7b\"text\":\"Hello\"\x7d]\n```".toList) = "Hello".toList ∧
    ∀ raw : Str, parseJsonModel (stripFences raw) = none → aiStructureText raw = raw := by
  constructor
  · rfl
  · intro raw h
    unfold aiStructureText
    rw [h]

/-- Claim C8, witness: `"Hello world"` does not parse as JSON and is
returned unchanged. -/
theorem c8_witness : aiStructureText ("Hello world".toList) = "Hello world".toList :=
  c8_salvage.2 ("Hello world".toList) (by rfl)

/-- Claim C3, counterexample: on the two-page document with first-line
texts `H1` and `H2` (threshold `floor(2*0.7)=1`), the text `H2` qualifies
as a repeated header and is excluded from the body, yet only the FIRST
detected header `H1` is re-emitted: `H2` appears nowhere in the output and
the first emitted block holds `H1`, not `H2`. -/
theorem c3_counterexample :
    ("H2".toList : Str) ≠ [] ∧
    "H2".toList ∈ firstLines docTwoPages ∧
    (7 * docTwoPages.length) / 10 ≤ (firstLines docTwoPages).count ("H2".toList) ∧
    parsePDFBlocks docTwoPages =
      [⟨BType.paragraph, "H1".toList⟩, ⟨BType.paragraph, "F".toList⟩] ∧
    (∀ b ∈ parsePDFBlocks docTwoPages, b.text ≠ "H2".toList) := by
  decide

/-- Claim C3, amended: every non-empty line text T occurring among the
first-line candidates with count at least `Math.floor(pageCount * 0.7)` —
the IEEE-double threshold the code computes — is excluded from the body
blocks wherever a line with that text occurs, and the block sequence then
begins with one Paragraph block holding the first DETECTED repeated header,
which need not be T (the counterexample's `H2` is dropped entirely; a
repeated header can also reappear as the appended repeated-footer
block). -/
theorem c3_amended (pages : List (List Frag)) (T : Str) (hne : T ≠ [])
    (hmem : T ∈ firstLines pages)
    (hcount : jsFloorMul07 pages.length ≤ (firstLines pages).count T) :
    (∀ b ∈ bodyBlocks pages (repeatedHeadersOf pages) (repeatedFootersOf pages),
        b.text ≠ T) ∧
    ∃ H rest, repeatedHeadersOf pages = H :: rest ∧
      (parsePDFBlocks pages).head? = some ⟨BType.paragraph, H⟩ := by
  have hT : T ∈ repeatedHeadersOf pages :=
    mem_findRepeatedLines.mpr ⟨hmem, hne, hcount⟩
  constructor
  · intro b hb
    obtain ⟨line, _, rfl, _, hnh, _⟩ := mem_bodyBlocks_iff.mp hb
    rw [classifyLine_text]
    intro heq
    exact hnh (heq ▸ hT)
  · obtain ⟨H, rest, hh⟩ : ∃ H rest, repeatedHeadersOf pages = H :: rest := by
      cases hh : repeatedHeadersOf pages with
      | nil =>
        rw [hh] at hT
        simp at hT
      | cons H rest => exact ⟨H, rest, rfl⟩
    refine ⟨H, rest, hh, ?_⟩
    unfold parsePDFBlocks
    rw [hh]
    rfl

/-- Claim C3, witness: on the one-page document the single first-line text
`H` is a repeated header, excluded from the body, and the output starts
with a Paragraph holding it. -/
theorem c3_witness :
    (∀ b ∈ bodyBlocks docOnePage (repeatedHeadersOf docOnePage)
        (repeatedFootersOf docOnePage), b.text ≠ "H".toList) ∧
    ∃ H rest, repeatedHeadersOf docOnePage = H :: rest ∧
      (parsePDFBlocks docOnePage).head? = some ⟨BType.paragraph, H⟩ :=
  c3_amended docOnePage ("H".toList) (by decide) (by decide) (by decide)

/-- Claim C5, counterexample: on the input `"Hi. "` Strategy A yields one
Heading block with text `Hi.`; re-running it on that text yields one
Paragraph block, so the block types are not reproduced. -/
theorem c5_counterexample :
    (textToNotionBlocks ("Hi. ".toList)).map NBlock.type = [BType.heading_2] ∧
    (textToNotionBlocks
        (joinBlank ((textToNotionBlocks ("Hi. ".toList)).map NBlock.text))).map
      NBlock.type = [BType.paragraph] := by
  decide

/-- Claim C5, amended: when every output text is non-empty, re-running
Strategy A on the blank-line-joined texts of its own output re-segments
into exactly the original texts — one block per original block, in order,
each the fresh reclassification of that text; the block TYPES are
preserved for Heading blocks whose text does not end with a period, but
not in general (trimming can expose a trailing period, and BulletItem
texts have lost their marker). -/
theorem c5_amended (s : Str)
    (h : ∀ b ∈ textToNotionBlocks s, b.text ≠ []) :
    textToNotionBlocks (joinBlank ((textToNotionBlocks s).map NBlock.text)) =
      ((textToNotionBlocks s).map NBlock.text).map classifySeg ∧
    ∀ b ∈ textToNotionBlocks s, b.type = BType.heading_2 →
      b.text.getLast? ≠ some '.' → classifySeg b.text = ⟨BType.heading_2, b.text⟩ := by
  have hts : ∀ t ∈ (textToNotionBlocks s).map NBlock.text,
      trim t = t ∧ noSep t ∧ t ≠ [] := by
    intro t ht
    obtain ⟨b, hb, rfl⟩ := List.mem_map.mp ht
    have hp := strategyA_block_props hb
    exact ⟨hp.1, hp.2.1, h b hb⟩
  constructor
  · exact rerun_on_trimmed ((textToNotionBlocks s).map NBlock.text) hts
  · intro b hb htype hdot
    have hp := strategyA_block_props hb
    have hlen : b.text.length < 100 := hp.2.2.2 htype
    unfold classifySeg
    rw [if_pos ⟨hlen, hdot⟩, hp.1]

/-- Claim C5, witness: re-running Strategy A on the output of `"Summary"`
re-segments into the same single text, and the Heading survives
reclassification. -/
theorem c5_witness :
    (textToNotionBlocks (joinBlank ((textToNotionBlocks ("Summary".toList)).map
        NBlock.text)) =
      ((textToNotionBlocks ("Summary".toList)).map NBlock.text).map classifySeg) ∧
    ∀ b ∈ textToNotionBlocks ("Summary".toList), b.type = BType.heading_2 →
      b.text.getLast? ≠ some '.' → classifySeg b.text = ⟨BType.heading_2, b.text⟩ :=
  c5_amended ("Summary".toList) (by decide)

set_option maxRecDepth 8000 in
/-- Claim C7, counterexample: on a 90-fragment line with exactly 62
fragments at the maximum height 12, the claim's exact threshold
`floor(90 * 0.7) = 63` is not met — the claimed rule classifies the line
as a Paragraph — yet the program computes `Math.floor(90 * 0.7) = 62` in
doubles and classifies it as a Heading. -/
theorem c7_counterexample :
    ¬((7 * line90.length) / 10 ≤
        ((line90.map Frag.height).filter
          (fun h => h = maxFont (line90.map Frag.height))).length) ∧
    10 < maxFont (line90.map Frag.height) ∧
    (classifyLine line90).type = BType.heading_2 := by
  decide

/-- Claim C7, amended: within the Strategy B assembly, a non-empty line
whose text matches no repeated header/footer contributes a body block, and
that block is a Heading exactly when at least `Math.floor(fragmentCount *
0.7)` — the IEEE-double value, which is the exact floor except one smaller
at fragment counts 90, 170, 180, 330, ... — of the line's fragments carry
the line's maximum height and that maximum exceeds 10 units; otherwise it
is a Paragraph. -/
theorem c7_heading_rule (pages : List (List Frag)) (hs fs : List Str) (line : List Frag)
    (hline : line ∈ (pages.map groupLines).flatten)
    (hne : lineText line ≠ []) (hh : lineText line ∉ hs) (hf : lineText line ∉ fs) :
    classifyLine line ∈ bodyBlocks pages hs fs ∧
    ((classifyLine line).type = BType.heading_2 ↔
      (jsFloorMul07 line.length ≤
          ((line.map Frag.height).filter
            (fun h => h = maxFont (line.map Frag.height))).length ∧
        10 < maxFont (line.map Frag.height))) ∧
    ((classifyLine line).type = BType.paragraph ↔
      ¬(jsFloorMul07 line.length ≤
          ((line.map Frag.height).filter
            (fun h => h = maxFont (line.map Frag.height))).length ∧
        10 < maxFont (line.map Frag.height))) := by
  refine ⟨mem_bodyBlocks_iff.mpr ⟨line, hline, rfl, hne, hh, hf⟩, ?_, ?_⟩
  · unfold classifyLine
    by_cases hc : headingCond line
    · rw [if_pos hc]
      exact iff_of_true rfl hc
    · rw [if_neg hc]
      exact iff_of_false (by simp) hc
  · unfold classifyLine
    by_cases hc : headingCond line
    · rw [if_pos hc]
      exact iff_of_false (by simp) (not_not.mpr hc)
    · rw [if_neg hc]
      exact iff_of_true rfl hc

/-- Claim C7, witness: the single tall line `T` (height 12, one fragment)
is emitted as a body block and classified as a Heading. -/
theorem c7_witness :
    classifyLine [tallFrag] ∈ bodyBlocks [[tallFrag]] [] [] ∧
    ((classifyLine [tallFrag]).type = BType.heading_2 ↔
      (jsFloorMul07 ([tallFrag] : List Frag).length ≤
          ((([tallFrag] : List Frag).map Frag.height).filter
            (fun h => h = maxFont (([tallFrag] : List Frag).map Frag.height))).length ∧
        10 < maxFont (([tallFrag] : List Frag).map Frag.height))) ∧
    ((classifyLine [tallFrag]).type = BType.paragraph ↔
      ¬(jsFloorMul07 ([tallFrag] : List Frag).length ≤
          ((([tallFrag] : List Frag).map Frag.height).filter
            (fun h => h = maxFont (([tallFrag] : List Frag).map Frag.height))).length ∧
        10 < maxFont (([tallFrag] : List Frag).map Frag.height))) :=
  c7_heading_rule [[tallFrag]] [] [] [tallFrag] (by decide) (by decide)
    (by decide) (by decide)

/-- Claim C10: on a one-page document with at least one line, the
threshold is `floor(1*0.7) = 0`, so the page's non-empty trimmed
first-line text is always detected as the (only) repeated header and its
non-empty last-line text as the (only) repeated footer; both are removed
from the body wherever they occur and re-emitted once, prepended
respectively appended as Paragraph blocks. -/
theorem c10_single_page (c : List Frag) (l : List Frag) (ls : List (List Frag))
    (hg : groupLines c = l :: ls)
    (h1 : lineText l ≠ [])
    (h2 : lineText ((l :: ls).getLast (List.cons_ne_nil l ls)) ≠ []) :
    repeatedHeadersOf [c] = [lineText l] ∧
    repeatedFootersOf [c] = [lineText ((l :: ls).getLast (List.cons_ne_nil l ls))] ∧
    parsePDFBlocks [c] =
      ⟨BType.paragraph, lineText l⟩ ::
        (bodyBlocks [c] (repeatedHeadersOf [c]) (repeatedFootersOf [c]) ++
          [⟨BType.paragraph, lineText ((l :: ls).getLast (List.cons_ne_nil l ls))⟩]) ∧
    (∀ b ∈ bodyBlocks [c] (repeatedHeadersOf [c]) (repeatedFootersOf [c]),
        b.text ≠ lineText l ∧
        b.text ≠ lineText ((l :: ls).getLast (List.cons_ne_nil l ls))) := by
  have hfirst : firstLines [c] = [lineText l] := by
    unfold firstLines
    simp [hg]
  have hlast : lastLines [c] =
      [lineText ((l :: ls).getLast (List.cons_ne_nil l ls))] := by
    unfold lastLines
    simp [hg]
  have hH : repeatedHeadersOf [c] = [lineText l] := by
    unfold repeatedHeadersOf
    rw [hfirst]
    exact findRepeatedLines_singleton _ h1
  have hF : repeatedFootersOf [c] =
      [lineText ((l :: ls).getLast (List.cons_ne_nil l ls))] := by
    unfold repeatedFootersOf
    rw [hlast]
    exact findRepeatedLines_singleton _ h2
  refine ⟨hH, hF, ?_, ?_⟩
  · unfold parsePDFBlocks
    rw [hH, hF]
    rfl
  · intro b hb
    obtain ⟨line, _, rfl, _, hnh, hnf⟩ := mem_bodyBlocks_iff.mp hb
    rw [classifyLine_text]
    constructor
    · intro heq
      apply hnh
      rw [hH, heq]
      exact List.mem_singleton.mpr rfl
    · intro heq
      apply hnf
      rw [hF, heq]
      exact List.mem_singleton.mpr rfl

/-- Claim C10, witness: on the title/body one-page document, `Title` is
the repeated header, `body text here` the repeated footer, the body is
emptied and both are re-emitted at the ends. -/
theorem c10_witness :
    repeatedHeadersOf [[titleFrag, bodyTextFrag]] = [lineText [titleFrag]] ∧
    repeatedFootersOf [[titleFrag, bodyTextFrag]] =
      [lineText (([titleFrag] :: [[bodyTextFrag]]).getLast
        (List.cons_ne_nil [titleFrag] [[bodyTextFrag]]))] ∧
    parsePDFBlocks [[titleFrag, bodyTextFrag]] =
      ⟨BType.paragraph, lineText [titleFrag]⟩ ::
        (bodyBlocks [[titleFrag, bodyTextFrag]]
            (repeatedHeadersOf [[titleFrag, bodyTextFrag]])
            (repeatedFootersOf [[titleFrag, bodyTextFrag]]) ++
          [⟨BType.paragraph, lineText (([titleFrag] :: [[bodyTextFrag]]).getLast
            (List.cons_ne_nil [titleFrag] [[bodyTextFrag]]))⟩]) ∧
    (∀ b ∈ bodyBlocks [[titleFrag, bodyTextFrag]]
        (repeatedHeadersOf [[titleFrag, bodyTextFrag]])
        (repeatedFootersOf [[titleFrag, bodyTextFrag]]),
      b.text ≠ lineText [titleFrag] ∧
      b.text ≠ lineText (([titleFrag] :: [[bodyTextFrag]]).getLast
        (List.cons_ne_nil [titleFrag] [[bodyTextFrag]]))) :=
  c10_single_page [titleFrag, bodyTextFrag] [titleFrag] [[bodyTextFrag]]
    (by decide) (by decide) (by decide)
